import Mathlib

/-
  Shallow embedding of the job-queue runner (src/job_queue.py).

  The store is the JSON queue file: an ordered list of job records.
  File-system writes, process spawns and kills are recorded as `Effect`s.
  Timestamps (datetime.now().isoformat()) are passed in as opaque strings.
  The behaviour of a launched child process — including the interleaving of
  external stop requests with the worker's 0.1s polling loop — is supplied
  by a `LaunchResult` environment value.
-/

namespace JobQueue

/-- One job record, with exactly the fields built in `add_job`. -/
structure Job where
  id : String
  name : String
  command : String
  status : String
  created_at : Option String
  started_at : Option String
  completed_at : Option String
  exit_code : Option Int
  pid : Option Int
  stop_requested : Bool
deriving DecidableEq, Repr

/-- Possible states of the durable queue file seen by `_load_queue`:
missing; existing but unreadable (`open` raises, e.g. PermissionError);
readable bytes that are not valid UTF-8 (`json.load` raises
UnicodeDecodeError); valid UTF-8 text that is not valid JSON (`json.load`
raises `json.JSONDecodeError`); or a well-formed list of job records. -/
inductive StoreFile where
  | absent
  | unreadable
  | notUtf8
  | badJson
  | content (jobs : List Job)
deriving Repr

/-- Model of `_load_queue` (lines 25-32): the missing-file check returns
`[]`, and the except clause catches exactly `json.JSONDecodeError` and
`FileNotFoundError`, also returning `[]`.  Any other exception escapes: an
unreadable file raises PermissionError at `open`, and a file whose bytes are
not valid UTF-8 raises UnicodeDecodeError inside `json.load`; neither is in
the except clause, so those errors propagate to the caller, modelled as
`Except.error`. -/
def load_queue : StoreFile → Except String (List Job)
  | StoreFile.absent => Except.ok []
  | StoreFile.unreadable => Except.error "PermissionError"
  | StoreFile.notUtf8 => Except.error "UnicodeDecodeError"
  | StoreFile.badJson => Except.ok []
  | StoreFile.content jobs => Except.ok jobs

/-- Observable side effects of the worker and the mutating operations. -/
inductive Effect where
  | save (jobs : List Job)
  | log (msg : String)
  | jobLog (jid : String) (content : String)
  | spawn (command : String) (pid : Int)
  | killChildren (pid : Int)
  | killProc (pid : Int)
deriving DecidableEq, Repr

def Effect.isSpawn : Effect → Bool
  | Effect.spawn _ _ => true
  | _ => false

def Effect.isJobLog : Effect → Bool
  | Effect.jobLog _ _ => true
  | _ => false

/-- Number of per-job log records among a list of effects. -/
def jobLogCount (effs : List Effect) : Nat :=
  (effs.filter Effect.isJobLog).length

/-- `get_job`: linear scan for the first job with the given id. -/
def getJob : List Job → String → Option Job
  | [], _ => none
  | j :: rest, jid => if j.id = jid then some j else getJob rest jid

/-- The in-place mutation done by `_update_job`: find the first job with the
given id, apply the field merge to it, `break`; an absent id changes nothing. -/
def updateFirst : List Job → String → (Job → Job) → List Job
  | [], _, _ => []
  | j :: rest, jid, f => if j.id = jid then f j :: rest else j :: updateFirst rest jid f

/-- `_update_job`: locked load / merge / save.  The save is unconditional,
it happens even when the id is absent. -/
def update_job (jobs : List Job) (jid : String) (f : Job → Job) :
    List Job × List Effect :=
  (updateFirst jobs jid f, [Effect.save (updateFirst jobs jid f)])

/-- Field merge applied when the worker claims a pending job (step 2). -/
def setRunning (ts : String) (j : Job) : Job :=
  { j with status := "running", started_at := some ts }

/-- Field merge recording the launched pid. -/
def setPid (p : Int) (j : Job) : Job :=
  { j with pid := some p }

/-- Field merge performed by `stop_job`. -/
def setStopRequested (j : Job) : Job :=
  { j with stop_requested := true }

/-- Field merge on the kill path of the monitoring loop. -/
def finishStopped (ts : String) (j : Job) : Job :=
  { j with status := "stopped", completed_at := some ts, exit_code := some (-15), pid := none, stop_requested := false }

/-- Field merge when the process exits on its own (note: the status is set to
"completed" regardless of the exit code). -/
def finishCompleted (ts : String) (code : Int) (j : Job) : Job :=
  { j with status := "completed", completed_at := some ts, exit_code := some code, pid := none }

/-- Field merge on the exception path of `run_next_job`. -/
def finishFailed (ts : String) (j : Job) : Job :=
  { j with status := "failed", completed_at := some ts, exit_code := some (-1), pid := none }

/-- Field merge of the idle pass cancelling a queued job. -/
def cancelPending (ts : String) (j : Job) : Job :=
  { j with status := "stopped", completed_at := some ts, exit_code := some (-1), stop_requested := false }

/-- The separator row written between log header and captured output. -/
def sepLine : String := String.mk (List.replicate 50 '=')

def showOptStr : Option String → String
  | none => "None"
  | some s => s

def showOptInt : Option Int → String
  | none => "None"
  | some n => toString n

/-- Header block of `_write_job_log`. -/
def jobLogHeader (j : Job) : String :=
  "Job ID: " ++ j.id ++ "\n" ++
  "Name: " ++ j.name ++ "\n" ++
  "Command: " ++ j.command ++ "\n" ++
  "Status: " ++ j.status ++ "\n" ++
  "Created: " ++ showOptStr j.created_at ++ "\n" ++
  "Started: " ++ showOptStr j.started_at ++ "\n" ++
  "Completed: " ++ showOptStr j.completed_at ++ "\n" ++
  "Exit Code: " ++ showOptInt j.exit_code ++ "\n" ++
  sepLine ++ "\n"

/-- STDOUT block, written only when the captured text is non-empty. -/
def stdoutSection (stdout : String) : String :=
  if stdout = "" then "" else "STDOUT:\n" ++ stdout ++ "\n"

/-- STDERR block, written only when the captured text is non-empty. -/
def stderrSection (stderr : String) : String :=
  if stderr = "" then "" else "STDERR:\n" ++ stderr ++ "\n"

/-- Full text produced by `_write_job_log`. -/
def jobLogContent (j : Job) (stdout stderr : String) : String :=
  jobLogHeader j ++ stdoutSection stdout ++ stderrSection stderr

/-- `_write_job_log` as an effect on `job_logs/job_<id>.log`. -/
def write_job_log (j : Job) (stdout stderr : String) : Effect :=
  Effect.jobLog j.id (jobLogContent j stdout stderr)

/-- The `updated_job = get_job(...); if updated_job: _write_job_log(...)` idiom. -/
def maybeWriteLog (o : Option Job) (stdout stderr : String) : List Effect :=
  match o with
  | some u => [write_job_log u stdout stderr]
  | none => []

/-- Key set of `running_processes` after `self.running_processes[jid] = p`. -/
def procsInsert (procs : List String) (jid : String) : List String :=
  if jid ∈ procs then procs else procs ++ [jid]

/-- Key set of `running_processes` after
`if jid in self.running_processes: del self.running_processes[jid]`. -/
def procsErase (procs : List String) (jid : String) : List String :=
  procs.filter (fun x => x ≠ jid)

/-- The fresh record built by `add_job`. -/
def newJob (jid name command ts : String) : Job :=
  { id := jid, name := name, command := command, status := "pending", created_at := some ts, started_at := none, completed_at := none, exit_code := none, pid := none, stop_requested := false }

/-- `add_job`: append a fresh pending record and save. -/
def add_job (jobs : List Job) (jid name command ts : String) : List Job :=
  jobs ++ [newJob jid name command ts]

/-- `remove_job`: pop the first job whose id matches and whose status is
"pending"; otherwise report failure and keep the list intact. -/
def remove_job : List Job → String → Bool × List Job
  | [], _ => (false, [])
  | j :: rest, jid =>
    if j.id = jid ∧ j.status = "pending" then (true, rest)
    else
      let r := remove_job rest jid
      (r.1, j :: r.2)

/-- `stop_job`: mark the job for stopping when it is pending or running;
the worker does the actual killing. -/
def stop_job (jobs : List Job) (jid : String) : Bool × List Job :=
  match getJob jobs jid with
  | some j =>
    if j.status = "pending" ∨ j.status = "running" then
      (true, updateFirst jobs jid setStopRequested)
    else (false, jobs)
  | none => (false, jobs)

/-- The `for job in jobs: if job["status"] == "pending":` scan of
`run_next_job`. -/
def findPending : List Job → Option Job
  | [] => none
  | j :: rest => if j.status = "pending" then some j else findPending rest

/-- Outcome of launching the selected job's command, together with the
interleaving seen by the monitoring sub-loop: `failure` is an exception
raised by `subprocess.Popen`; `success pid polls stdout stderr code` is a
spawned process whose `poll()` returns None for `polls.length` iterations
(each list element tells whether an external `stop_job` call set the job's
`stop_requested` flag just before that iteration's check) and which, if the
loop falls through, yields the given captured output and return code. -/
inductive LaunchResult where
  | failure (err : String)
  | success (pid : Int) (polls : List Bool) (stdout : String) (stderr : String) (code : Int)

/-- The `current_job and current_job.get("stop_requested")` check. -/
def observedFlag : Option Job → Bool
  | some c => c.stop_requested
  | none => false

/-- Result of one `run_next_job` call. `selected` records which job the
pending-scan claimed, `ran` is the returned boolean. -/
structure RunResult where
  store : List Job
  procs : List String
  effects : List Effect
  ran : Bool
  selected : Option String
deriving Repr

/-- The monitoring sub-loop (`while process.poll() is None`) plus the
post-loop completion handling of `run_next_job`. -/
def monitor (store : List Job) (procs : List String) (jid : String) (pid : Int)
    (polls : List Bool) (stdout stderr : String) (code : Int) (ts : String) :
    List Job × List String × List Effect :=
  match polls with
  | [] =>
    let store2 := updateFirst store jid (finishCompleted ts code)
    let doneMsg :=
      if code = 0 then Effect.log ("Job " ++ jid ++ " completed successfully")
      else Effect.log ("Job " ++ jid ++ " failed with exit code " ++ toString code)
    (store2, procsErase procs jid,
      Effect.save store2 :: (maybeWriteLog (getJob store2 jid) stdout stderr ++ [doneMsg]))
  | ext :: rest =>
    let store1 := if ext then updateFirst store jid setStopRequested else store
    if observedFlag (getJob store1 jid) then
      let store2 := updateFirst store1 jid (finishStopped ts)
      (store2, procsErase procs jid,
        Effect.killChildren pid :: Effect.killProc pid :: Effect.killProc pid ::
        Effect.save store2 ::
        (maybeWriteLog (getJob store2 jid) "" "Job was stopped by user" ++
          [Effect.log ("Stopped job " ++ jid)]))
    else
      monitor store1 procs jid pid rest stdout stderr code ts

/-- `run_next_job`: claim the first pending job, mark it running, launch it,
monitor it; the three exits (stop request observed, natural termination,
exception) each persist a terminal state and return True.  Returns False
only when no pending job exists. -/
def run_next_job (jobs : List Job) (procs : List String) (env : LaunchResult)
    (ts1 ts2 : String) : RunResult :=
  match findPending jobs with
  | none =>
    { store := jobs, procs := procs, effects := [], ran := false, selected := none }
  | some j =>
    let startLog := Effect.log ("Starting job " ++ j.id ++ ": " ++ j.name)
    let store1 := updateFirst jobs j.id (setRunning ts1)
    match env with
    | LaunchResult.failure err =>
      let store2 := updateFirst store1 j.id (finishFailed ts2)
      { store := store2, procs := procsErase procs j.id,
        effects := startLog :: Effect.save store1 :: Effect.save store2 ::
          (maybeWriteLog (getJob store2 j.id) "" err ++
            [Effect.log ("Job " ++ j.id ++ " failed with exception: " ++ err)]),
        ran := true, selected := some j.id }
    | LaunchResult.success pid polls stdout stderr code =>
      let store2 := updateFirst store1 j.id (setPid pid)
      let m := monitor store2 (procsInsert procs j.id) j.id pid polls stdout stderr code ts2
      { store := m.1, procs := m.2.1,
        effects := startLog :: Effect.save store1 :: Effect.spawn j.command pid ::
          Effect.save store2 :: m.2.2,
        ran := true, selected := some j.id }

/-- The idle-pass scan of `worker_loop`: iterate over the snapshot loaded at
line 253, cancelling every pending job whose stop flag is set; each
cancellation is an `_update_job` against the current store. -/
def idlePassGo (snapshot store : List Job) (ts : String) : List Job × List Effect :=
  match snapshot with
  | [] => (store, [])
  | j :: rest =>
    if j.stop_requested = true ∧ j.status = "pending" then
      let store1 := updateFirst store j.id (cancelPending ts)
      let r := idlePassGo rest store1 ts
      (r.1, Effect.save store1 :: Effect.log ("Cancelled pending job " ++ j.id) :: r.2)
    else idlePassGo rest store ts

/-- The idle pass run on a freshly loaded queue. -/
def idlePass (jobs : List Job) (ts : String) : List Job × List Effect :=
  idlePassGo jobs jobs ts

/-- Number of jobs whose status is "running". -/
def runningCount (jobs : List Job) : Nat :=
  (jobs.filter (fun j => j.status = "running")).length

/-- Whole-system state: the durable store plus the worker's position —
`none` when the worker sits between `run_next_job` calls, `some jid` while
it occupies steps 2-6 for job `jid`. -/
structure SysState where
  store : List Job
  phase : Option String
deriving Repr

def initState : SysState := { store := [], phase := none }

/-- Interleaved small-step semantics of the single sequential worker plus
arbitrarily many concurrent callers of add/remove/stop.  Each step is one
atomic store mutation (every mutation goes through the lock of
`_update_job` / `_save_queue`). -/
inductive Step : SysState → SysState → Prop where
  | add (s : SysState) (jid name command ts : String)
      (hfresh : ∀ j ∈ s.store, j.id ≠ jid) :
      Step s { store := add_job s.store jid name command ts, phase := s.phase }
  | remove (s : SysState) (jid : String) :
      Step s { store := (remove_job s.store jid).2, phase := s.phase }
  | stopReq (s : SysState) (jid : String) :
      Step s { store := (stop_job s.store jid).2, phase := s.phase }
  | pick (s : SysState) (j : Job) (ts : String)
      (hidle : s.phase = none)
      (hfind : findPending s.store = some j) :
      Step s { store := updateFirst s.store j.id (setRunning ts), phase := some j.id }
  | setpid (s : SysState) (jid : String) (p : Int)
      (hbusy : s.phase = some jid) :
      Step s { store := updateFirst s.store jid (setPid p), phase := some jid }
  | finishRun (s : SysState) (jid ts : String) (code : Int)
      (hbusy : s.phase = some jid) :
      Step s { store := updateFirst s.store jid (finishCompleted ts code), phase := none }
  | finishStop (s : SysState) (jid ts : String)
      (hbusy : s.phase = some jid) :
      Step s { store := updateFirst s.store jid (finishStopped ts), phase := none }
  | finishFail (s : SysState) (jid ts : String)
      (hbusy : s.phase = some jid) :
      Step s { store := updateFirst s.store jid (finishFailed ts), phase := none }
  | idleCancel (s : SysState) (jid ts : String)
      (hidle : s.phase = none) :
      Step s { store := updateFirst s.store jid (cancelPending ts), phase := none }

/-- States reachable from the empty store with an idle worker. -/
inductive Reachable : SysState → Prop where
  | init : Reachable initState
  | step {s s2 : SysState} : Reachable s → Step s s2 → Reachable s2

/-- The inductive invariant: store ids are pairwise distinct (they come from
fresh uuids), and any running job is the one the worker currently occupies. -/
def Inv (s : SysState) : Prop :=
  (s.store.map Job.id).Nodup ∧
  ∀ j ∈ s.store, j.status = "running" → s.phase = some j.id

/-- Concrete pending job used as C2's witness input. -/
def w2job : Job :=
  { id := "w2", name := "W2", command := "sleep 100", status := "pending", created_at := some "t0", started_at := none, completed_at := none, exit_code := none, pid := none, stop_requested := false }

/-- Concrete pending job whose command exits with code 1 (C1's failing input). -/
def c1job : Job :=
  { id := "c1", name := "J1", command := "exit 1", status := "pending", created_at := some "t0", started_at := none, completed_at := none, exit_code := none, pid := none, stop_requested := false }

/-- Concrete pending job with a stop request already recorded (C3's input). -/
def c3job : Job :=
  { id := "c3", name := "C3", command := "sleep 100", status := "pending", created_at := some "t0", started_at := none, completed_at := none, exit_code := none, pid := none, stop_requested := true }

/-- Concrete pending job with a stop request already recorded (C4's witness input). -/
def c4job : Job :=
  { id := "c4", name := "C4", command := "sleep 100", status := "pending", created_at := some "t0", started_at := none, completed_at := none, exit_code := none, pid := none, stop_requested := true }

/-- Concrete pending job with an unstartable command (C6's witness input). -/
def w6job : Job :=
  { id := "w6", name := "W6", command := "no-such-binary", status := "pending", created_at := some "t0", started_at := none, completed_at := none, exit_code := none, pid := none, stop_requested := false }

/-- Concrete already-terminal job placed ahead of a pending one (C9's witness input). -/
def w9a : Job :=
  { id := "w9a", name := "A", command := "true", status := "completed", created_at := some "t0", started_at := some "t0", completed_at := some "t0", exit_code := some 0, pid := none, stop_requested := false }

/-- Concrete pending job placed second in the stored order (C9's witness input). -/
def w9b : Job :=
  { id := "w9b", name := "B", command := "true", status := "pending", created_at := some "t0", started_at := none, completed_at := none, exit_code := none, pid := none, stop_requested := false }

/-! ### Lemmas about the store primitives -/

theorem getJob_updateFirst_self (l : List Job) (jid : String) (f : Job → Job)
    (hf : ∀ x, (f x).id = x.id) :
    getJob (updateFirst l jid f) jid = (getJob l jid).map f := by
  induction l with
  | nil => rfl
  | cons a rest ih =>
    by_cases h : a.id = jid
    · simp [updateFirst, getJob, h, hf]
    · simp [updateFirst, getJob, h, ih]

theorem getJob_updateFirst_other (l : List Job) (jid jid2 : String) (f : Job → Job)
    (hf : ∀ x, (f x).id = x.id) (hne : jid ≠ jid2) :
    getJob (updateFirst l jid2 f) jid = getJob l jid := by
  induction l with
  | nil => rfl
  | cons a rest ih =>
    by_cases h : a.id = jid2
    · simp [updateFirst, getJob, h, hf, Ne.symm hne]
    · simp [updateFirst, getJob, h, ih]

theorem map_id_updateFirst (l : List Job) (jid : String) (f : Job → Job)
    (hf : ∀ x, (f x).id = x.id) :
    (updateFirst l jid f).map Job.id = l.map Job.id := by
  induction l with
  | nil => rfl
  | cons a rest ih =>
    by_cases h : a.id = jid
    · simp [updateFirst, h, hf]
    · simp [updateFirst, h, ih]

theorem updateFirst_no_match (l : List Job) (jid : String) (f : Job → Job)
    (h : ∀ j ∈ l, j.id ≠ jid) :
    updateFirst l jid f = l := by
  induction l with
  | nil => rfl
  | cons a rest ih =>
    have ha := h a (List.mem_cons_self a rest)
    simp [updateFirst, ha, ih (fun j hj => h j (List.mem_cons_of_mem a hj))]

theorem updateFirst_cases (l : List Job) (jid : String) (f : Job → Job) :
    (updateFirst l jid f = l ∧ ∀ x ∈ l, x.id ≠ jid) ∨
    ∃ l1 b l2, l = l1 ++ b :: l2 ∧ b.id = jid ∧ (∀ x ∈ l1, x.id ≠ jid) ∧
      updateFirst l jid f = l1 ++ f b :: l2 := by
  induction l with
  | nil => exact Or.inl ⟨rfl, by simp⟩
  | cons a rest ih =>
    by_cases h : a.id = jid
    · exact Or.inr ⟨[], a, rest, by simp, h, by simp, by simp [updateFirst, h]⟩
    · rcases ih with ⟨heq, hall⟩ | ⟨l1, b, l2, hl, hb, hl1, hupd⟩
      · refine Or.inl ⟨by simp [updateFirst, h, heq], ?_⟩
        intro x hx
        rcases List.mem_cons.mp hx with rfl | hx2
        · exact h
        · exact hall x hx2
      · refine Or.inr ⟨a :: l1, b, l2, by simp [hl], hb, ?_, by simp [updateFirst, h, hupd]⟩
        intro x hx
        rcases List.mem_cons.mp hx with rfl | hx2
        · exact h
        · exact hl1 x hx2

theorem mem_updateFirst (l : List Job) (jid : String) (f : Job → Job) (a : Job)
    (h : a ∈ updateFirst l jid f) :
    a ∈ l ∨ ∃ b, b ∈ l ∧ b.id = jid ∧ a = f b := by
  induction l with
  | nil => cases h
  | cons c rest ih =>
    by_cases hc : c.id = jid
    · simp only [updateFirst, if_pos hc] at h
      rcases List.mem_cons.mp h with rfl | h2
      · exact Or.inr ⟨c, List.mem_cons_self _ _, hc, rfl⟩
      · exact Or.inl (List.mem_cons_of_mem c h2)
    · simp only [updateFirst, if_neg hc] at h
      rcases List.mem_cons.mp h with rfl | h2
      · exact Or.inl (List.mem_cons_self _ _)
      · rcases ih h2 with h3 | ⟨b, hb, hid, rfl⟩
        · exact Or.inl (List.mem_cons_of_mem c h3)
        · exact Or.inr ⟨b, List.mem_cons_of_mem c hb, hid, rfl⟩

theorem getJob_of_mem_nodup (l : List Job) (j : Job)
    (hnodup : (l.map Job.id).Nodup) (hmem : j ∈ l) :
    getJob l j.id = some j := by
  induction l with
  | nil => cases hmem
  | cons a rest ih =>
    have hnd : a.id ∉ rest.map Job.id ∧ (rest.map Job.id).Nodup :=
      List.nodup_cons.mp (by simpa using hnodup)
    rcases List.mem_cons.mp hmem with rfl | hmem2
    · simp [getJob]
    · have hne : a.id ≠ j.id := by
        intro he
        exact hnd.1 (by rw [he]; exact List.mem_map.mpr ⟨j, hmem2, rfl⟩)
      simp [getJob, hne, ih hnd.2 hmem2]

theorem findPending_mem (l : List Job) (j : Job) (h : findPending l = some j) :
    j ∈ l ∧ j.status = "pending" := by
  induction l with
  | nil => cases h
  | cons a rest ih =>
    by_cases ha : a.status = "pending"
    · simp only [findPending, if_pos ha, Option.some.injEq] at h
      subst h
      exact ⟨List.mem_cons_self _ _, ha⟩
    · simp only [findPending, if_neg ha] at h
      exact ⟨List.mem_cons_of_mem a (ih h).1, (ih h).2⟩

theorem remove_job_sublist (l : List Job) (jid : String) :
    List.Sublist (remove_job l jid).2 l := by
  induction l with
  | nil => simp [remove_job]
  | cons a rest ih =>
    by_cases h : a.id = jid ∧ a.status = "pending"
    · simp only [remove_job, if_pos h]
      exact List.sublist_cons_self a rest
    · simp only [remove_job, if_neg h]
      exact List.Sublist.cons₂ a ih

theorem nodup_length_le_one (l : List String) (c : String)
    (hnodup : l.Nodup) (hall : ∀ x ∈ l, x = c) : l.length ≤ 1 := by
  match l with
  | [] => simp
  | [a] => simp
  | a :: b :: rest =>
    exfalso
    have ha := hall a (by simp)
    have hb := hall b (by simp)
    have hnin : a ∉ b :: rest := (List.nodup_cons.mp hnodup).1
    exact hnin (by simp [ha, hb])

/-! ### Claim theorems: store operations -/

/-- C5: `remove_job` succeeds exactly when some stored job has the given id
and status "pending"; on failure the store is untouched, on success exactly
that first matching job is deleted from the sequence. -/
theorem remove_job_spec (jobs : List Job) (jid : String) :
    ((remove_job jobs jid).1 = true ↔ ∃ j ∈ jobs, j.id = jid ∧ j.status = "pending") ∧
    ((remove_job jobs jid).1 = false → (remove_job jobs jid).2 = jobs) ∧
    ((remove_job jobs jid).1 = true →
      ∃ l1 j l2, jobs = l1 ++ j :: l2 ∧ j.id = jid ∧ j.status = "pending" ∧
        (remove_job jobs jid).2 = l1 ++ l2) := by
  induction jobs with
  | nil => simp [remove_job]
  | cons a rest ih =>
    by_cases h : a.id = jid ∧ a.status = "pending"
    · refine ⟨?_, ?_, ?_⟩
      · simp only [remove_job, if_pos h]
        exact ⟨fun _ => ⟨a, List.mem_cons_self a rest, h.1, h.2⟩, fun _ => trivial⟩
      · intro hf
        simp only [remove_job, if_pos h] at hf
        cases hf
      · intro _
        exact ⟨[], a, rest, rfl, h.1, h.2, by simp [remove_job, if_pos h]⟩
    · refine ⟨?_, ?_, ?_⟩
      · simp only [remove_job, if_neg h]
        constructor
        · intro ht
          rcases ih.1.mp ht with ⟨j, hj, hjid, hjp⟩
          exact ⟨j, List.mem_cons_of_mem a hj, hjid, hjp⟩
        · rintro ⟨j, hj, hjid, hjp⟩
          rcases List.mem_cons.mp hj with rfl | hj2
          · exact absurd ⟨hjid, hjp⟩ h
          · exact ih.1.mpr ⟨j, hj2, hjid, hjp⟩
      · intro hf
        simp only [remove_job, if_neg h] at hf ⊢
        rw [ih.2.1 hf]
      · intro ht
        simp only [remove_job, if_neg h] at ht ⊢
        rcases ih.2.2 ht with ⟨l1, j, l2, hrest, hjid, hjp, hres⟩
        exact ⟨a :: l1, j, l2, by simp [hrest], hjid, hjp, by simp [hres]⟩

/-- C5 witness: a concrete pending job is removed, a concrete missing id is
refused with the store unchanged. -/
theorem remove_job_spec_witness :
    (remove_job [newJob "a1" "n" "c" "t"] "a1").1 = true ∧
    (remove_job [newJob "a1" "n" "c" "t"] "zz").1 = false ∧
    (remove_job [newJob "a1" "n" "c" "t"] "zz").2 = [newJob "a1" "n" "c" "t"] := by
  refine ⟨?_, ?_, ?_⟩
  · exact (remove_job_spec [newJob "a1" "n" "c" "t"] "a1").1.mpr
      ⟨newJob "a1" "n" "c" "t", by simp, rfl, rfl⟩
  · decide
  · exact (remove_job_spec [newJob "a1" "n" "c" "t"] "zz").2.1 (by decide)

/-- C7 counterexample: a durable store whose file holds invalid UTF-8 bytes
(e.g. truncated by a crash mid-write) is unreadable/corrupt, yet
`_load_queue` raises UnicodeDecodeError instead of returning the empty
sequence, and a store file the process may not read raises PermissionError —
so the claimed return-empty-and-never-raise behaviour fails at these store
states. -/
theorem load_queue_raises_on_undecodable_store :
    load_queue StoreFile.notUtf8 = Except.error "UnicodeDecodeError" ∧
    load_queue StoreFile.unreadable = Except.error "PermissionError" ∧
    load_queue StoreFile.notUtf8 ≠ Except.ok [] :=
  ⟨rfl, rfl, fun h => Except.noConfusion h⟩

/-- C7 (amended): `_load_queue` returns the empty sequence when the store
file is absent or holds UTF-8 text that fails JSON parsing — exactly the two
exception classes its except clause names — and returns the stored jobs
otherwise; but a store file that is unreadable or not valid UTF-8 makes it
raise, and those errors propagate to the caller. -/
theorem load_queue_partial_error_absorption :
    load_queue StoreFile.absent = Except.ok [] ∧
    load_queue StoreFile.badJson = Except.ok [] ∧
    (∀ jobs, load_queue (StoreFile.content jobs) = Except.ok jobs) ∧
    load_queue StoreFile.notUtf8 = Except.error "UnicodeDecodeError" ∧
    load_queue StoreFile.unreadable = Except.error "PermissionError" :=
  ⟨rfl, rfl, fun _ => rfl, rfl, rfl⟩

/-- C10: `_update_job` on an id that occurs nowhere in the queue leaves the
job sequence unchanged, raises no error, and still rewrites the (unchanged)
store content. -/
theorem update_job_absent_id (jobs : List Job) (jid : String) (f : Job → Job)
    (h : ∀ j ∈ jobs, j.id ≠ jid) :
    update_job jobs jid f = (jobs, [Effect.save jobs]) := by
  unfold update_job
  rw [updateFirst_no_match jobs jid f h]

/-- C10 witness: updating a missing id over a one-job store. -/
theorem update_job_absent_id_witness :
    (∀ j ∈ [newJob "a1" "n" "c" "t"], j.id ≠ "zz") ∧
    update_job [newJob "a1" "n" "c" "t"] "zz" setStopRequested =
      ([newJob "a1" "n" "c" "t"], [Effect.save [newJob "a1" "n" "c" "t"]]) :=
  ⟨by decide, update_job_absent_id _ _ _ (by decide)⟩

/-! ### The at-most-one-running invariant (C8) -/

theorem finish_inv (s : SysState) (jid : String) (f : Job → Job)
    (hf : ∀ x, (f x).id = x.id) (hterm : ∀ x, (f x).status ≠ "running")
    (hnd : (s.store.map Job.id).Nodup)
    (hrun : ∀ j ∈ s.store, j.status = "running" → s.phase = some j.id)
    (hbusy : s.phase = some jid) :
    Inv { store := updateFirst s.store jid f, phase := none } := by
  refine ⟨by rw [map_id_updateFirst s.store jid f hf]; exact hnd, ?_⟩
  intro a ha hrunning
  exfalso
  rcases updateFirst_cases s.store jid f with ⟨heq, hnone⟩ | ⟨l1, b, l2, hl, hbid, hl1, hupd⟩
  · rw [heq] at ha
    have hp := hrun a ha hrunning
    rw [hbusy] at hp
    exact hnone a ha (Option.some.inj hp).symm
  · rw [hupd] at ha
    rcases List.mem_append.mp ha with ha1 | ha2
    · have hmem : a ∈ s.store := by rw [hl]; exact List.mem_append.mpr (Or.inl ha1)
      have hp := hrun a hmem hrunning
      rw [hbusy] at hp
      exact hl1 a ha1 (Option.some.inj hp).symm
    · rcases List.mem_cons.mp ha2 with rfl | ha3
      · exact hterm b hrunning
      · have hmem : a ∈ s.store := by
          rw [hl]; exact List.mem_append.mpr (Or.inr (List.mem_cons_of_mem b ha3))
        have hp := hrun a hmem hrunning
        rw [hbusy] at hp
        have haid : a.id = jid := (Option.some.inj hp).symm
        rw [hl, List.map_append, List.map_cons] at hnd
        have hbnotin : b.id ∉ l2.map Job.id := by
          have h2 := (List.nodup_append.mp hnd).2.1
          exact (List.nodup_cons.mp h2).1
        apply hbnotin
        rw [hbid, ← haid]
        exact List.mem_map.mpr ⟨a, ha3, rfl⟩

theorem step_inv {s s2 : SysState} (hs : Inv s) (hstep : Step s s2) : Inv s2 := by
  obtain ⟨hnd, hrun⟩ := hs
  cases hstep with
  | add jid name command ts hfresh =>
    constructor
    · show ((add_job s.store jid name command ts).map Job.id).Nodup
      rw [show add_job s.store jid name command ts = s.store ++ [newJob jid name command ts]
        from rfl, List.map_append]
      refine List.Nodup.append hnd (by simp) ?_
      intro x hx1 hx2
      simp [newJob] at hx2
      rcases List.mem_map.mp hx1 with ⟨j, hj, rfl⟩
      exact hfresh j hj hx2
    · intro j hj hrunning
      rcases List.mem_append.mp hj with hj1 | hj2
      · exact hrun j hj1 hrunning
      · simp at hj2
        subst hj2
        exact absurd hrunning (by simp [newJob])
  | remove jid =>
    have hsub := remove_job_sublist s.store jid
    exact ⟨List.Nodup.sublist (List.Sublist.map Job.id hsub) hnd,
      fun j hj hr => hrun j (hsub.subset hj) hr⟩
  | stopReq jid =>
    have hcase : (stop_job s.store jid).2 = s.store ∨
        (stop_job s.store jid).2 = updateFirst s.store jid setStopRequested := by
      unfold stop_job
      cases getJob s.store jid with
      | none => exact Or.inl rfl
      | some j =>
        by_cases hc : j.status = "pending" ∨ j.status = "running"
        · simp [hc]
        · simp [hc]
    rcases hcase with hcase | hcase
    · rw [hcase]
      exact ⟨hnd, hrun⟩
    · rw [hcase]
      constructor
      · rw [map_id_updateFirst s.store jid setStopRequested (fun x => rfl)]
        exact hnd
      · intro a ha hrunning
        rcases mem_updateFirst s.store jid setStopRequested a ha with ha1 | ⟨b, hb, hbid, rfl⟩
        · exact hrun a ha1 hrunning
        · exact hrun b hb hrunning
  | pick j ts hidle hfind =>
    constructor
    · rw [map_id_updateFirst s.store j.id (setRunning ts) (fun x => rfl)]
      exact hnd
    · intro a ha hrunning
      rcases mem_updateFirst s.store j.id (setRunning ts) a ha with ha1 | ⟨b, hb, hbid, rfl⟩
      · have hp := hrun a ha1 hrunning
        rw [hidle] at hp
        cases hp
      · show some j.id = some (setRunning ts b).id
        rw [show (setRunning ts b).id = b.id from rfl, hbid]
  | setpid jid p hbusy =>
    constructor
    · rw [map_id_updateFirst s.store jid (setPid p) (fun x => rfl)]
      exact hnd
    · intro a ha hrunning
      rcases mem_updateFirst s.store jid (setPid p) a ha with ha1 | ⟨b, hb, hbid, rfl⟩
      · have hp := hrun a ha1 hrunning
        rw [hbusy] at hp
        exact hp
      · have hp := hrun b hb hrunning
        rw [hbusy] at hp
        show some jid = some (setPid p b).id
        rw [show (setPid p b).id = b.id from rfl]
        exact hp
  | finishRun jid ts code hbusy =>
    exact finish_inv s jid (finishCompleted ts code) (fun x => rfl)
      (fun x h => by simp [finishCompleted] at h) hnd hrun hbusy
  | finishStop jid ts hbusy =>
    exact finish_inv s jid (finishStopped ts) (fun x => rfl)
      (fun x h => by simp [finishStopped] at h) hnd hrun hbusy
  | finishFail jid ts hbusy =>
    exact finish_inv s jid (finishFailed ts) (fun x => rfl)
      (fun x h => by simp [finishFailed] at h) hnd hrun hbusy
  | idleCancel jid ts hidle =>
    constructor
    · rw [map_id_updateFirst s.store jid (cancelPending ts) (fun x => rfl)]
      exact hnd
    · intro a ha hrunning
      exfalso
      rcases mem_updateFirst s.store jid (cancelPending ts) a ha with ha1 | ⟨b, hb, hbid, rfl⟩
      · have hp := hrun a ha1 hrunning
        rw [hidle] at hp
        cases hp
      · exact absurd hrunning (by simp [cancelPending])

theorem reachable_inv (s : SysState) (h : Reachable s) : Inv s := by
  induction h with
  | init => exact ⟨by simp [initState], by simp [initState]⟩
  | step _ hstep ih => exact step_inv ih hstep

theorem inv_running_le_one (s : SysState) (hinv : Inv s) : runningCount s.store ≤ 1 := by
  obtain ⟨hnd, hrun⟩ := hinv
  cases hphase : s.phase with
  | none =>
    have hfil : s.store.filter (fun j => j.status = "running") = [] := by
      apply List.filter_eq_nil_iff.mpr
      intro a ha
      simp only [decide_eq_true_eq]
      intro hr2
      have hp := hrun a ha hr2
      rw [hphase] at hp
      cases hp
    simp [runningCount, hfil]
  | some i =>
    have hsub : List.Sublist (s.store.filter (fun j => j.status = "running")) s.store :=
      List.filter_sublist s.store
    have hnd2 : ((s.store.filter (fun j => j.status = "running")).map Job.id).Nodup :=
      List.Nodup.sublist (List.Sublist.map Job.id hsub) hnd
    have hall : ∀ x ∈ (s.store.filter (fun j => j.status = "running")).map Job.id, x = i := by
      intro x hx
      rcases List.mem_map.mp hx with ⟨a, ha, rfl⟩
      have ha2 : a ∈ s.store := List.mem_of_mem_filter ha
      have hpa : a.status = "running" := by
        have hq := List.of_mem_filter ha
        simpa using hq
      have hp := hrun a ha2 hpa
      rw [hphase] at hp
      exact (Option.some.inj hp).symm
    have hlen := nodup_length_le_one _ i hnd2 hall
    rw [List.length_map] at hlen
    exact hlen

/-- C8: in every reachable interleaving of the sequential worker with
concurrent add/remove/stop callers, at most one stored job has status
"running" at any instant. -/
theorem at_most_one_running (s : SysState) (h : Reachable s) :
    runningCount s.store ≤ 1 :=
  inv_running_le_one s (reachable_inv s h)

/-- C8 witness: the initial state is reachable and satisfies the bound. -/
theorem at_most_one_running_witness :
    Reachable initState ∧ runningCount initState.store ≤ 1 :=
  ⟨Reachable.init, at_most_one_running initState Reachable.init⟩

/-! ### The monitoring sub-loop (C2, C1, C6, C3) -/

theorem not_mem_procsErase (procs : List String) (jid : String) :
    jid ∉ procsErase procs jid := by
  intro h
  rcases List.mem_filter.mp h with ⟨_, hne⟩
  simp at hne

theorem monitor_stop_spec : ∀ (polls : List Bool) (store : List Job) (procs : List String)
    (jid : String) (pid : Int) (c : Job) (stdout stderr : String) (code : Int) (ts : String),
    getJob store jid = some c →
    polls ≠ [] →
    (c.stop_requested = true ∨ true ∈ polls) →
    getJob (monitor store procs jid pid polls stdout stderr code ts).1 jid =
      some (finishStopped ts c) ∧
    (monitor store procs jid pid polls stdout stderr code ts).2.1 = procsErase procs jid ∧
    Effect.killChildren pid ∈ (monitor store procs jid pid polls stdout stderr code ts).2.2 ∧
    Effect.killProc pid ∈ (monitor store procs jid pid polls stdout stderr code ts).2.2 ∧
    write_job_log (finishStopped ts c) "" "Job was stopped by user" ∈
      (monitor store procs jid pid polls stdout stderr code ts).2.2 := by
  intro polls
  induction polls with
  | nil =>
    intro store procs jid pid c stdout stderr code ts hget hne hobs
    exact absurd rfl hne
  | cons ext rest ih =>
    intro store procs jid pid c stdout stderr code ts hget hne hobs
    cases ext with
    | true =>
      have h1 : getJob (updateFirst store jid setStopRequested) jid =
          some (setStopRequested c) := by
        rw [getJob_updateFirst_self store jid setStopRequested (fun x => rfl), hget]
        rfl
      have h2 : getJob (updateFirst (updateFirst store jid setStopRequested) jid
          (finishStopped ts)) jid = some (finishStopped ts c) := by
        rw [getJob_updateFirst_self _ jid (finishStopped ts) (fun x => rfl), h1]
        rfl
      refine ⟨?_, ?_, ?_, ?_, ?_⟩ <;>
        simp [monitor, h1, h2, observedFlag, setStopRequested, maybeWriteLog, write_job_log]
    | false =>
      by_cases hc : c.stop_requested = true
      · have h2 : getJob (updateFirst store jid (finishStopped ts)) jid =
            some (finishStopped ts c) := by
          rw [getJob_updateFirst_self store jid (finishStopped ts) (fun x => rfl), hget]
          rfl
        refine ⟨?_, ?_, ?_, ?_, ?_⟩ <;>
          simp [monitor, hget, h2, observedFlag, hc, maybeWriteLog, write_job_log]
      · have hc2 : c.stop_requested = false := Bool.eq_false_iff.mpr hc
        have htrue : true ∈ rest := by
          rcases hobs with hobs | hobs
          · exact absurd hobs hc
          · rcases List.mem_cons.mp hobs with h0 | h0
            · cases h0
            · exact h0
        have hres := ih store procs jid pid c stdout stderr code ts hget
          (List.ne_nil_of_mem htrue) (Or.inr htrue)
        refine ⟨?_, ?_, ?_, ?_, ?_⟩ <;>
          · simp only [monitor, observedFlag, hget, hc2, if_false, Bool.false_eq_true,
              ite_false, reduceIte]
            first
              | exact hres.1
              | exact hres.2.1
              | exact hres.2.2.1
              | exact hres.2.2.2.1
              | exact hres.2.2.2.2

/-- C2: when the monitoring sub-loop observes the job's `stop_requested`
flag (either set before launch or set by a concurrent `stop_job` during some
polling iteration), `run_next_job` kills the process tree, deletes the job
from `running_processes`, persists status "stopped" with exit code -15,
null pid, cleared flag and both timestamps, and writes a job log whose
STDERR section is the cancellation note. -/
theorem stop_request_observed_stops_job (jobs : List Job) (procs : List String)
    (j : Job) (pid : Int) (polls : List Bool) (stdout stderr : String)
    (code : Int) (ts1 ts2 : String)
    (hnd : (jobs.map Job.id).Nodup)
    (hfind : findPending jobs = some j)
    (hne : polls ≠ [])
    (hobs : j.stop_requested = true ∨ true ∈ polls) :
    (run_next_job jobs procs (LaunchResult.success pid polls stdout stderr code) ts1 ts2).ran
      = true ∧
    getJob (run_next_job jobs procs (LaunchResult.success pid polls stdout stderr code)
        ts1 ts2).store j.id =
      some { j with status := "stopped", started_at := some ts1, completed_at := some ts2, exit_code := some (-15), pid := none, stop_requested := false } ∧
    j.id ∉ (run_next_job jobs procs (LaunchResult.success pid polls stdout stderr code)
        ts1 ts2).procs ∧
    Effect.killChildren pid ∈ (run_next_job jobs procs
        (LaunchResult.success pid polls stdout stderr code) ts1 ts2).effects ∧
    Effect.killProc pid ∈ (run_next_job jobs procs
        (LaunchResult.success pid polls stdout stderr code) ts1 ts2).effects ∧
    ∃ h, Effect.jobLog j.id (h ++ ("STDERR:\n" ++ "Job was stopped by user" ++ "\n")) ∈
      (run_next_job jobs procs (LaunchResult.success pid polls stdout stderr code)
        ts1 ts2).effects := by
  obtain ⟨hmem, hp⟩ := findPending_mem jobs j hfind
  have hgetj : getJob jobs j.id = some j := getJob_of_mem_nodup jobs j hnd hmem
  have hg1 : getJob (updateFirst jobs j.id (setRunning ts1)) j.id =
      some (setRunning ts1 j) := by
    rw [getJob_updateFirst_self jobs j.id (setRunning ts1) (fun x => rfl), hgetj]
    rfl
  have hg2 : getJob (updateFirst (updateFirst jobs j.id (setRunning ts1)) j.id
      (setPid pid)) j.id = some (setPid pid (setRunning ts1 j)) := by
    rw [getJob_updateFirst_self (updateFirst jobs j.id (setRunning ts1)) j.id
      (setPid pid) (fun x => rfl), hg1]
    rfl
  have hmon := monitor_stop_spec polls
    (updateFirst (updateFirst jobs j.id (setRunning ts1)) j.id (setPid pid))
    (procsInsert procs j.id) j.id pid (setPid pid (setRunning ts1 j))
    stdout stderr code ts2 hg2 hne hobs
  have hrunEq : run_next_job jobs procs (LaunchResult.success pid polls stdout stderr code)
      ts1 ts2 =
      { store := (monitor (updateFirst (updateFirst jobs j.id (setRunning ts1)) j.id
          (setPid pid)) (procsInsert procs j.id) j.id pid polls stdout stderr code ts2).1,
        procs := (monitor (updateFirst (updateFirst jobs j.id (setRunning ts1)) j.id
          (setPid pid)) (procsInsert procs j.id) j.id pid polls stdout stderr code ts2).2.1,
        effects := Effect.log ("Starting job " ++ j.id ++ ": " ++ j.name) ::
          Effect.save (updateFirst jobs j.id (setRunning ts1)) ::
          Effect.spawn j.command pid ::
          Effect.save (updateFirst (updateFirst jobs j.id (setRunning ts1)) j.id (setPid pid)) ::
          (monitor (updateFirst (updateFirst jobs j.id (setRunning ts1)) j.id
            (setPid pid)) (procsInsert procs j.id) j.id pid polls stdout stderr code ts2).2.2,
        ran := true, selected := some j.id } := by
    simp only [run_next_job, hfind]
  rw [hrunEq]
  refine ⟨rfl, hmon.1, ?_, ?_, ?_, ?_⟩
  · show j.id ∉ (monitor (updateFirst (updateFirst jobs j.id (setRunning ts1)) j.id
      (setPid pid)) (procsInsert procs j.id) j.id pid polls stdout stderr code ts2).2.1
    rw [hmon.2.1]
    exact not_mem_procsErase (procsInsert procs j.id) j.id
  · exact List.mem_cons_of_mem _ (List.mem_cons_of_mem _ (List.mem_cons_of_mem _
      (List.mem_cons_of_mem _ hmon.2.2.1)))
  · exact List.mem_cons_of_mem _ (List.mem_cons_of_mem _ (List.mem_cons_of_mem _
      (List.mem_cons_of_mem _ hmon.2.2.2.1)))
  · refine ⟨jobLogHeader (finishStopped ts2 (setPid pid (setRunning ts1 j))) ++
      stdoutSection "", ?_⟩
    have hw : Effect.jobLog j.id ((jobLogHeader (finishStopped ts2 (setPid pid
        (setRunning ts1 j))) ++ stdoutSection "") ++
        ("STDERR:\n" ++ "Job was stopped by user" ++ "\n")) =
        write_job_log (finishStopped ts2 (setPid pid (setRunning ts1 j))) ""
          "Job was stopped by user" := rfl
    rw [hw]
    exact List.mem_cons_of_mem _ (List.mem_cons_of_mem _ (List.mem_cons_of_mem _
      (List.mem_cons_of_mem _ hmon.2.2.2.2)))

/-- C2 witness: a stop request arriving at the second polling iteration
stops the concrete job with exit code -15. -/
theorem stop_request_observed_stops_job_witness :
    (run_next_job [w2job] [] (LaunchResult.success 7 [false, true] "" "" 0)
        "t1" "t2").ran = true ∧
    getJob (run_next_job [w2job] [] (LaunchResult.success 7 [false, true] "" "" 0)
        "t1" "t2").store "w2" =
      some { w2job with status := "stopped", started_at := some "t1", completed_at := some "t2", exit_code := some (-15), pid := none, stop_requested := false } := by
  have h := stop_request_observed_stops_job [w2job] [] w2job 7 [false, true] "" "" 0
    "t1" "t2" (by simp) rfl (by simp) (Or.inr (by simp))
  exact ⟨h.1, h.2.1⟩

/-- C6: when launching the claimed job's process raises an execution error,
`run_next_job` persists status "failed" with exit code -1 and a null pid,
writes the job log with the error text as its STDERR section, and still
returns True so that `worker_loop` goes on to its next iteration. -/
theorem launch_failure_marks_failed (jobs : List Job) (procs : List String)
    (j : Job) (err : String) (ts1 ts2 : String)
    (hnd : (jobs.map Job.id).Nodup)
    (hfind : findPending jobs = some j)
    (herr : err ≠ "") :
    (run_next_job jobs procs (LaunchResult.failure err) ts1 ts2).ran = true ∧
    getJob (run_next_job jobs procs (LaunchResult.failure err) ts1 ts2).store j.id =
      some { j with status := "failed", started_at := some ts1, completed_at := some ts2, exit_code := some (-1), pid := none } ∧
    ∃ h, Effect.jobLog j.id (h ++ ("STDERR:\n" ++ err ++ "\n")) ∈
      (run_next_job jobs procs (LaunchResult.failure err) ts1 ts2).effects := by
  obtain ⟨hmem, hp⟩ := findPending_mem jobs j hfind
  have hgetj : getJob jobs j.id = some j := getJob_of_mem_nodup jobs j hnd hmem
  have hg1 : getJob (updateFirst jobs j.id (setRunning ts1)) j.id =
      some (setRunning ts1 j) := by
    rw [getJob_updateFirst_self jobs j.id (setRunning ts1) (fun x => rfl), hgetj]
    rfl
  have hg2 : getJob (updateFirst (updateFirst jobs j.id (setRunning ts1)) j.id
      (finishFailed ts2)) j.id = some (finishFailed ts2 (setRunning ts1 j)) := by
    rw [getJob_updateFirst_self (updateFirst jobs j.id (setRunning ts1)) j.id
      (finishFailed ts2) (fun x => rfl), hg1]
    rfl
  have hrunEq : run_next_job jobs procs (LaunchResult.failure err) ts1 ts2 =
      { store := updateFirst (updateFirst jobs j.id (setRunning ts1)) j.id (finishFailed ts2),
        procs := procsErase procs j.id,
        effects := Effect.log ("Starting job " ++ j.id ++ ": " ++ j.name) ::
          Effect.save (updateFirst jobs j.id (setRunning ts1)) ::
          Effect.save (updateFirst (updateFirst jobs j.id (setRunning ts1)) j.id
            (finishFailed ts2)) ::
          (maybeWriteLog (getJob (updateFirst (updateFirst jobs j.id (setRunning ts1)) j.id
            (finishFailed ts2)) j.id) "" err ++
            [Effect.log ("Job " ++ j.id ++ " failed with exception: " ++ err)]),
        ran := true, selected := some j.id } := by
    simp only [run_next_job, hfind]
  rw [hrunEq]
  refine ⟨rfl, hg2, ?_⟩
  refine ⟨jobLogHeader (finishFailed ts2 (setRunning ts1 j)) ++ stdoutSection "", ?_⟩
  have hse : stderrSection err = "STDERR:\n" ++ err ++ "\n" := by
    simp [stderrSection, herr]
  have hw : Effect.jobLog j.id ((jobLogHeader (finishFailed ts2 (setRunning ts1 j)) ++
      stdoutSection "") ++ ("STDERR:\n" ++ err ++ "\n")) =
      write_job_log (finishFailed ts2 (setRunning ts1 j)) "" err := by
    simp only [write_job_log, jobLogContent, hse]
    rfl
  rw [hw, hg2]
  exact List.mem_cons_of_mem _ (List.mem_cons_of_mem _ (List.mem_cons_of_mem _
    (List.mem_append.mpr (Or.inl (by simp [maybeWriteLog])))))

/-- C6 witness: a concrete unstartable command leaves the job failed with
exit code -1 and the worker's call returning True. -/
theorem launch_failure_marks_failed_witness :
    (run_next_job [w6job] [] (LaunchResult.failure "boom") "t1" "t2").ran = true ∧
    getJob (run_next_job [w6job] [] (LaunchResult.failure "boom") "t1" "t2").store "w6" =
      some { w6job with status := "failed", started_at := some "t1", completed_at := some "t2", exit_code := some (-1), pid := none } := by
  have h := launch_failure_marks_failed [w6job] [] w6job "boom" "t1" "t2"
    (by simp) rfl (by decide)
  exact ⟨h.1, h.2.1⟩

set_option maxRecDepth 8000 in
/-- C1: at the failing input — a pending job whose process exits on its own
with code 1 — the worker stores status "completed" (not "failed") together
with exit code 1, even though its own activity log calls the job failed; the
job log is still written with the captured output.  This contradicts the
claimed completed-iff-zero/failed-otherwise transition. -/
theorem nonzero_exit_still_marked_completed :
    (getJob (run_next_job [c1job] [] (LaunchResult.success 7 [] "out" "err" 1)
        "t1" "t2").store "c1").map Job.status = some "completed" ∧
    (getJob (run_next_job [c1job] [] (LaunchResult.success 7 [] "out" "err" 1)
        "t1" "t2").store "c1").bind Job.exit_code = some 1 ∧
    Effect.log "Job c1 failed with exit code 1" ∈
      (run_next_job [c1job] [] (LaunchResult.success 7 [] "out" "err" 1) "t1" "t2").effects ∧
    write_job_log { c1job with status := "completed", started_at := some "t1", completed_at := some "t2", exit_code := some 1, pid := none } "out" "err" ∈
      (run_next_job [c1job] [] (LaunchResult.success 7 [] "out" "err" 1) "t1" "t2").effects := by
  refine ⟨rfl, rfl, ?_, ?_⟩ <;> decide

/-! ### Job-log counting (C3) -/

theorem jobLogCount_cons (e : Effect) (l : List Effect) :
    jobLogCount (e :: l) = (if e.isJobLog then 1 else 0) + jobLogCount l := by
  by_cases h : e.isJobLog
  · simp [jobLogCount, List.filter_cons, h, Nat.add_comm]
  · simp [jobLogCount, List.filter_cons, h]

theorem getJob_isSome_of_mem (l : List Job) (j : Job) (h : j ∈ l) :
    (getJob l j.id).isSome = true := by
  induction l with
  | nil => cases h
  | cons a rest ih =>
    by_cases ha : a.id = j.id
    · simp [getJob, ha]
    · rcases List.mem_cons.mp h with rfl | h2
      · exact absurd rfl ha
      · simp [getJob, ha, ih h2]

theorem getJob_isSome_updateFirst (l : List Job) (jid : String) (f : Job → Job)
    (hf : ∀ x, (f x).id = x.id) (h : (getJob l jid).isSome = true) :
    (getJob (updateFirst l jid f) jid).isSome = true := by
  rw [getJob_updateFirst_self l jid f hf]
  cases hg : getJob l jid
  · rw [hg] at h
    cases h
  · simp

theorem monitor_jobLogCount : ∀ (polls : List Bool) (store : List Job) (procs : List String)
    (jid : String) (pid : Int) (stdout stderr : String) (code : Int) (ts : String),
    (getJob store jid).isSome = true →
    jobLogCount (monitor store procs jid pid polls stdout stderr code ts).2.2 = 1 := by
  intro polls
  induction polls with
  | nil =>
    intro store procs jid pid stdout stderr code ts hsome
    have h2 := getJob_isSome_updateFirst store jid (finishCompleted ts code)
      (fun x => rfl) hsome
    obtain ⟨u, hu⟩ := Option.isSome_iff_exists.mp h2
    by_cases hcode : code = 0
    · subst hcode
      simp [monitor, hu, maybeWriteLog, jobLogCount, List.filter_cons, List.filter_append,
        Effect.isJobLog, write_job_log]
    · simp [monitor, hu, maybeWriteLog, jobLogCount, List.filter_cons, List.filter_append,
        Effect.isJobLog, write_job_log, hcode]
  | cons ext rest ih =>
    intro store procs jid pid stdout stderr code ts hsome
    cases ext with
    | true =>
      have h1 : (getJob (updateFirst store jid setStopRequested) jid).isSome = true :=
        getJob_isSome_updateFirst store jid setStopRequested (fun x => rfl) hsome
      cases hob : observedFlag (getJob (updateFirst store jid setStopRequested) jid) with
      | true =>
        have h2 := getJob_isSome_updateFirst (updateFirst store jid setStopRequested) jid
          (finishStopped ts) (fun x => rfl) h1
        obtain ⟨u, hu⟩ := Option.isSome_iff_exists.mp h2
        simp [monitor, hob, hu, maybeWriteLog, jobLogCount, List.filter_cons,
          List.filter_append, Effect.isJobLog, write_job_log]
      | false =>
        have hrec := ih (updateFirst store jid setStopRequested) procs jid pid
          stdout stderr code ts h1
        simpa [monitor, hob] using hrec
    | false =>
      cases hob : observedFlag (getJob store jid) with
      | true =>
        have h2 := getJob_isSome_updateFirst store jid (finishStopped ts) (fun x => rfl) hsome
        obtain ⟨u, hu⟩ := Option.isSome_iff_exists.mp h2
        simp [monitor, hob, hu, maybeWriteLog, jobLogCount, List.filter_cons,
          List.filter_append, Effect.isJobLog, write_job_log]
      | false =>
        have hrec := ih store procs jid pid stdout stderr code ts hsome
        simpa [monitor, hob] using hrec

theorem idlePassGo_effects : ∀ (snapshot store : List Job) (ts : String),
    ∀ e ∈ (idlePassGo snapshot store ts).2, e.isSpawn = false ∧ e.isJobLog = false := by
  intro snapshot
  induction snapshot with
  | nil =>
    intro store ts e he
    simp [idlePassGo] at he
  | cons a rest ih =>
    intro store ts e he
    by_cases h : a.stop_requested = true ∧ a.status = "pending"
    · simp only [idlePassGo, if_pos h] at he
      rcases List.mem_cons.mp he with rfl | he2
      · exact ⟨rfl, rfl⟩
      rcases List.mem_cons.mp he2 with rfl | he3
      · exact ⟨rfl, rfl⟩
      · exact ih (updateFirst store a.id (cancelPending ts)) ts e he3
    · simp only [idlePassGo, if_neg h] at he
      exact ih store ts e he

/-- C3 (amended): every terminal path of `run_next_job` — stop request, own
termination, launch error — writes exactly one job log record and an idle
call writes none, but the idle-pass cancellation of a flagged pending job
writes no job log record at all. -/
theorem job_log_written_exactly_once_on_run_paths (jobs : List Job)
    (procs : List String) (env : LaunchResult) (ts1 ts2 ts3 : String) :
    jobLogCount (run_next_job jobs procs env ts1 ts2).effects =
      (if (run_next_job jobs procs env ts1 ts2).ran then 1 else 0) ∧
    jobLogCount (idlePass jobs ts3).2 = 0 := by
  constructor
  · cases hfind : findPending jobs with
    | none => cases env <;> simp [run_next_job, hfind, jobLogCount]
    | some j =>
      obtain ⟨hmem, hp⟩ := findPending_mem jobs j hfind
      have hsome : (getJob jobs j.id).isSome = true := getJob_isSome_of_mem jobs j hmem
      have h1 : (getJob (updateFirst jobs j.id (setRunning ts1)) j.id).isSome = true :=
        getJob_isSome_updateFirst jobs j.id (setRunning ts1) (fun x => rfl) hsome
      cases env with
      | failure err =>
        have h2 := getJob_isSome_updateFirst (updateFirst jobs j.id (setRunning ts1)) j.id
          (finishFailed ts2) (fun x => rfl) h1
        obtain ⟨u, hu⟩ := Option.isSome_iff_exists.mp h2
        simp [run_next_job, hfind, hu, maybeWriteLog, jobLogCount, List.filter_cons,
          List.filter_append, Effect.isJobLog, write_job_log]
      | success pid polls stdout stderr code =>
        have h2 : (getJob (updateFirst (updateFirst jobs j.id (setRunning ts1)) j.id
            (setPid pid)) j.id).isSome = true :=
          getJob_isSome_updateFirst (updateFirst jobs j.id (setRunning ts1)) j.id
            (setPid pid) (fun x => rfl) h1
        have hm := monitor_jobLogCount polls
          (updateFirst (updateFirst jobs j.id (setRunning ts1)) j.id (setPid pid))
          (procsInsert procs j.id) j.id pid stdout stderr code ts2 h2
        simp [run_next_job, hfind, jobLogCount_cons, Effect.isJobLog, hm]
  · have hall := idlePassGo_effects jobs jobs ts3
    have hfil : (idlePass jobs ts3).2.filter Effect.isJobLog = [] :=
      List.filter_eq_nil_iff.mpr (fun e he => by simp [(hall e he).2])
    simp [jobLogCount, hfil]

/-- C3 counterexample: the idle pass moves a flagged pending job out of
"pending" (to "stopped") while writing zero job log records, so a job can
leave "pending" without producing a job log record. -/
theorem idle_pass_cancellation_writes_no_job_log :
    (getJob (idlePass [c3job] "t1").1 "c3").map Job.status = some "stopped" ∧
    jobLogCount (idlePass [c3job] "t1").2 = 0 :=
  ⟨rfl, rfl⟩

/-! ### The idle pass (C4) -/

theorem idleGo_preserve : ∀ (snapshot store : List Job) (ts jid : String),
    (∀ x ∈ snapshot, x.id ≠ jid) →
    getJob (idlePassGo snapshot store ts).1 jid = getJob store jid := by
  intro snapshot
  induction snapshot with
  | nil =>
    intro store ts jid _
    rfl
  | cons a rest ih =>
    intro store ts jid hnin
    have ha : a.id ≠ jid := hnin a (List.mem_cons_self _ _)
    have hrest : ∀ x ∈ rest, x.id ≠ jid := fun x hx => hnin x (List.mem_cons_of_mem a hx)
    by_cases h : a.stop_requested = true ∧ a.status = "pending"
    · simp only [idlePassGo, if_pos h]
      rw [ih (updateFirst store a.id (cancelPending ts)) ts jid hrest]
      exact getJob_updateFirst_other store jid a.id (cancelPending ts)
        (fun x => rfl) (Ne.symm ha)
    · simp only [idlePassGo, if_neg h]
      exact ih store ts jid hrest

theorem idleGo_sets : ∀ (snapshot store : List Job) (ts : String) (j : Job),
    j ∈ snapshot → j.status = "pending" → j.stop_requested = true →
    (snapshot.map Job.id).Nodup →
    getJob store j.id = some j →
    getJob (idlePassGo snapshot store ts).1 j.id = some (cancelPending ts j) := by
  intro snapshot
  induction snapshot with
  | nil =>
    intro store ts j hmem
    cases hmem
  | cons a rest ih =>
    intro store ts j hmem hp hf hnd hget
    have hnd2 : a.id ∉ rest.map Job.id ∧ (rest.map Job.id).Nodup :=
      List.nodup_cons.mp (by simpa using hnd)
    rcases List.mem_cons.mp hmem with rfl | hmem2
    · have hcond : j.stop_requested = true ∧ j.status = "pending" := ⟨hf, hp⟩
      simp only [idlePassGo, if_pos hcond]
      have h1 : getJob (updateFirst store j.id (cancelPending ts)) j.id =
          some (cancelPending ts j) := by
        rw [getJob_updateFirst_self store j.id (cancelPending ts) (fun x => rfl), hget]
        rfl
      rw [idleGo_preserve rest (updateFirst store j.id (cancelPending ts)) ts j.id ?_]
      · exact h1
      · intro x hx he
        exact hnd2.1 (by rw [← he]; exact List.mem_map.mpr ⟨x, hx, rfl⟩)
    · have haj : a.id ≠ j.id := by
        intro he
        exact hnd2.1 (by rw [he]; exact List.mem_map.mpr ⟨j, hmem2, rfl⟩)
      by_cases h : a.stop_requested = true ∧ a.status = "pending"
      · simp only [idlePassGo, if_pos h]
        apply ih (updateFirst store a.id (cancelPending ts)) ts j hmem2 hp hf hnd2.2
        rw [getJob_updateFirst_other store j.id a.id (cancelPending ts)
          (fun x => rfl) (Ne.symm haj)]
        exact hget
      · simp only [idlePassGo, if_neg h]
        exact ih store ts j hmem2 hp hf hnd2.2 hget

/-- C4: the idle pass turns every pending job whose `stop_requested` flag is
set into status "stopped" with exit code -1 and the flag cleared, and its
effects contain no process spawn and no job log write. -/
theorem idle_pass_cancels_flagged_pending (jobs : List Job) (ts : String) (j : Job)
    (hnd : (jobs.map Job.id).Nodup) (hmem : j ∈ jobs)
    (hp : j.status = "pending") (hf : j.stop_requested = true) :
    getJob (idlePass jobs ts).1 j.id =
      some { j with status := "stopped", completed_at := some ts, exit_code := some (-1), stop_requested := false } ∧
    ∀ e ∈ (idlePass jobs ts).2, e.isSpawn = false ∧ e.isJobLog = false := by
  constructor
  · have hget : getJob jobs j.id = some j := getJob_of_mem_nodup jobs j hnd hmem
    exact idleGo_sets jobs jobs ts j hmem hp hf hnd hget
  · exact idlePassGo_effects jobs jobs ts

/-- C4 witness: a concrete flagged pending job is cancelled by the idle pass
without any spawn or job log effect. -/
theorem idle_pass_cancels_flagged_pending_witness :
    ([c4job].map Job.id).Nodup ∧
    getJob (idlePass [c4job] "t9").1 c4job.id = some (cancelPending "t9" c4job) := by
  refine ⟨by simp, ?_⟩
  exact (idle_pass_cancels_flagged_pending [c4job] "t9" c4job (by simp) (by simp)
    rfl rfl).1

/-! ### FIFO selection (C9) -/

theorem findPending_first_index : ∀ (jobs : List Job) (k : Nat) (hk : k < jobs.length),
    (jobs.get ⟨k, hk⟩).status = "pending" →
    (∀ m (hm : m < k), (jobs.get ⟨m, Nat.lt_trans hm hk⟩).status ≠ "pending") →
    findPending jobs = some (jobs.get ⟨k, hk⟩) := by
  intro jobs
  induction jobs with
  | nil =>
    intro k hk
    exact absurd hk (Nat.not_lt_zero k)
  | cons a rest ih =>
    intro k hk hp hbefore
    match k with
    | 0 =>
      have hpa : a.status = "pending" := hp
      simp only [findPending, if_pos hpa]
      rfl
    | Nat.succ k2 =>
      have ha : a.status ≠ "pending" := hbefore 0 (Nat.succ_pos k2)
      simp only [findPending, if_neg ha]
      have hk2 : k2 < rest.length := Nat.lt_of_succ_lt_succ hk
      have hres : findPending rest = some (rest.get ⟨k2, hk2⟩) := by
        apply ih k2 hk2 hp
        intro m hm
        exact hbefore (m + 1) (Nat.succ_lt_succ hm)
      exact hres

/-- C9: `run_next_job` claims exactly the first job with status "pending" in
stored order — its scan is the `findPending` fold, and whenever index k is
the first pending index the selected id is that job's id (FIFO over the
pending subsequence, no reordering). -/
theorem run_next_job_picks_first_pending (jobs : List Job) (procs : List String)
    (env : LaunchResult) (ts1 ts2 : String) :
    ((run_next_job jobs procs env ts1 ts2).selected = (findPending jobs).map Job.id) ∧
    (∀ k (hk : k < jobs.length), (jobs.get ⟨k, hk⟩).status = "pending" →
      (∀ m (hm : m < k), (jobs.get ⟨m, Nat.lt_trans hm hk⟩).status ≠ "pending") →
      (run_next_job jobs procs env ts1 ts2).selected = some (jobs.get ⟨k, hk⟩).id) := by
  have hsel : (run_next_job jobs procs env ts1 ts2).selected =
      (findPending jobs).map Job.id := by
    cases hfind : findPending jobs with
    | none => simp [run_next_job, hfind]
    | some j => cases env <;> simp [run_next_job, hfind]
  refine ⟨hsel, ?_⟩
  intro k hk hp hbefore
  rw [hsel, findPending_first_index jobs k hk hp hbefore]
  rfl

/-- C9 witness: with a completed job stored ahead of a pending one, the
worker selects the pending job in second position. -/
theorem run_next_job_picks_first_pending_witness :
    (run_next_job [w9a, w9b] [] (LaunchResult.failure "e") "t1" "t2").selected =
      some "w9b" := by
  have hb : ∀ m (hm : m < 1),
      (([w9a, w9b].get ⟨m, Nat.lt_trans hm (by decide)⟩).status ≠ "pending") := by
    intro m hm
    have hm0 : m = 0 := Nat.lt_one_iff.mp hm
    subst hm0
    exact (by decide : ("completed" : String) ≠ "pending")
  exact (run_next_job_picks_first_pending [w9a, w9b] [] (LaunchResult.failure "e")
    "t1" "t2").2 1 (by decide) rfl hb

end JobQueue
